import Mathlib

/-!
Shallow embedding of the sophos scheduler plugins: the pipeline admission
gate (AreLesserOrderPodsScheduled), the neighbor resolver (ArePodsNeighbors),
the shared SLO lookup (GetSharedChainsSlos), the predicted-usage accessors
(GetOwnerDeployment, GetAppCpuUsage, GetAppMemoryUsage,
GetAppRequestsPerSecond), the NetworkSloAware score plugin and the shared
score normalizer (NormalizeScore).

Modelling conventions, chosen once for the whole file:

* Kubernetes label and annotation maps are modelled as ordered association
  lists (`List (String × String)`); lookup returns the first matching entry.
  Go map iteration order is unspecified, so any result that depends on the
  iteration order (the early-return scan of GetSharedChainsSlos) is settled
  relative to the list order; well-formed label maps have no duplicate keys,
  which theorems assume through an explicit `keysNodup` hypothesis where the
  distinction matters.
* `strconv.Atoi` and `strconv.ParseFloat` are modelled on the plain decimal
  fragment exercised by the code: optional sign, digits, and for ParseFloat
  an optional fractional part.  Exponent, hexadecimal and Inf/NaN forms of
  ParseFloat are outside this fragment, and float64 rounding is not
  modelled: every numeric value in play (small integers, halves, tens) is
  exactly representable in float64, so exact rationals agree with the
  float64 computation on this domain.  Atoi keeps Go's int64 range check.
* float64 arithmetic (subtraction, abs, multiplication, division) is
  modelled over ℚ, exact on the domain above.  Division by a rational zero
  yields 0 in ℚ while Go would produce an infinity; no claim and no theorem
  in this file exercises a zero divisor.
* Go int64 arithmetic wraps on overflow; `wrap64` applies the two's
  complement reduction after every int64 operation where the operand can
  leave the 64-bit range (NormalizeScore's affine transform and the score
  accumulator of the SLO scorer).  `int64(f)` conversion of a float64
  truncates toward zero, modelled by `truncRat`.
* The clientset / snapshot collaborators are modelled by a pure `Cluster`
  value; the infrastructure error paths of List/Get calls (modelled as
  total reads over that value) do not arise, except for the candidate-node
  lookup of the Score plugin which the code checks explicitly and which is
  modelled with `Option`.  Error message strings and log output are dropped.
-/

/-- Membership test used by `takeWhile`/`dropWhile` below: decimal point. -/
def isDot (c : Char) : Bool := c = '.'

/-- Numeric value of a digit list, most significant first. -/
def digitsVal (l : List Char) : Nat :=
  l.foldl (fun n c => 10 * n + (c.toNat - 48)) 0

/-- True when every character is an ASCII digit. -/
def allDigits (l : List Char) : Bool := l.all fun c => c.isDigit

/-- Split an optional leading sign from a character list; `true` means negative. -/
def splitSign : List Char → Bool × List Char
  | '-' :: rest => (true, rest)
  | '+' :: rest => (false, rest)
  | l => (false, l)

/-- Model of strconv.Atoi on a 64-bit platform: optional sign, at least one
digit, nothing else, with the int64 range check; `none` is Go's error. -/
def atoi? (s : String) : Option Int :=
  let p := splitSign s.data
  if p.2 = [] then none
  else if allDigits p.2 then
    let n : Int := (digitsVal p.2 : Nat)
    let v : Int := if p.1 then -n else n
    if v < -(2 ^ 63) then none
    else if 2 ^ 63 - 1 < v then none
    else some v
  else none

/-- Applies the parsed sign. -/
def applySign (neg : Bool) (q : ℚ) : ℚ := if neg then -q else q

/-- Model of strconv.ParseFloat on plain decimal literals: optional sign,
digits, optional decimal point and fraction digits, at least one digit in
total; `none` is Go's error.  The value is kept as an exact rational. -/
def parseFloat? (s : String) : Option ℚ :=
  let p := splitSign s.data
  let ip := p.2.takeWhile fun c => !(isDot c)
  let rest := p.2.dropWhile fun c => !(isDot c)
  match rest with
  | [] =>
    if ip = [] then none
    else if allDigits ip then some (applySign p.1 (digitsVal ip : ℚ))
    else none
  | _ :: frac =>
    if allDigits ip ∧ allDigits frac ∧ (ip ≠ [] ∨ frac ≠ []) then
      some (applySign p.1 ((digitsVal ip : ℚ) + (digitsVal frac : ℚ) / (10 : ℚ) ^ frac.length))
    else none

/-- Go's `int64(f)` conversion of a float64: truncation toward zero,
modelled on exact rationals. -/
def truncRat (q : ℚ) : Int := Int.tdiv q.num (q.den : Int)

/-- Two's complement reduction of an int64 result: Go integer arithmetic
wraps on overflow. -/
def wrap64 (n : Int) : Int := (n + 2 ^ 63) % 2 ^ 64 - 2 ^ 63

/-- Go int64 division: truncated division, wrapping on the single overflow
case (minInt64 / -1). -/
def int64Div (a b : Int) : Int := wrap64 (Int.tdiv a b)

/-- Model of strconv.Itoa. -/
def itoa (i : Int) : String := toString i

/-- Model of strings.HasPrefix: does `s` start with `pre`. -/
def hasLeading (s pre : String) : Bool := pre.data.isPrefixOf s.data

/-- A label key names a pipeline stage dimension when it carries the
reserved "chain-" naming. -/
def isChainKey (k : String) : Bool := hasLeading k "chain-"

/-- First-match lookup in an association list, the model of a Go map read. -/
def lookupS : List (String × String) → String → Option String
  | [], _ => none
  | kv :: rest, k => if kv.1 = k then some kv.2 else lookupS rest k

/-- Well-formedness of a modelled Go map: no duplicate keys. -/
def keysNodup (l : List (String × String)) : Prop := (l.map Prod.fst).Nodup

instance (l : List (String × String)) : Decidable (keysNodup l) :=
  inferInstanceAs (Decidable (l.map Prod.fst).Nodup)

structure OwnerRef where
  kind : String
  name : String
  deriving DecidableEq

structure Pod where
  name : String
  ns : String
  labels : List (String × String)
  annotations : List (String × String)
  nodeName : String
  ownerReferences : List OwnerRef
  deriving DecidableEq

structure Node where
  name : String
  annotations : List (String × String)
  deriving DecidableEq

structure ReplicaSet where
  name : String
  ns : String
  ownerReferences : List OwnerRef
  deriving DecidableEq

structure Deployment where
  name : String
  ns : String
  annotations : List (String × String)
  deriving DecidableEq

/-- One entry of a framework.NodeScoreList. -/
structure NodeScore where
  name : String
  score : Int
  deriving DecidableEq

/-- Point-in-time snapshot of the cluster state read through the handle:
pods, replica sets, deployments and nodes. -/
structure Cluster where
  pods : List Pod
  replicaSets : List ReplicaSet
  deployments : List Deployment
  nodes : List Node
  deriving DecidableEq

/-- framework.MaxNodeScore. -/
def MaxNodeScore : Int := 100

/-- framework.MinNodeScore. -/
def MinNodeScore : Int := 0

/-- Does a pod carry every label of the selector with the selected value. -/
def matchesLabels (q : Pod) (sel : List (String × String)) : Bool :=
  sel.all fun kv => lookupS q.labels kv.1 == some kv.2

/-- Model of the namespaced Pods List call with a label selector. -/
def listPods (cluster : Cluster) (ns : String) (sel : List (String × String)) : List Pod :=
  cluster.pods.filter fun q => q.ns == ns && matchesLabels q sel

/-- One predecessor query of the admission gate: at least one pod in the
group carries the stage key at index - 1, and all of them are bound. -/
def lesserOk (cluster : Cluster) (pod : Pod) (g k : String) (i : Int) : Bool :=
  let preds := listPods cluster pod.ns [("app-group", g), (k, itoa (i - 1))]
  !preds.isEmpty && preds.all fun q => !(q.nodeName == "")

/-- The chain-label loop of AreLesserOrderPodsScheduled: an unparsable
chain value fails the whole gate; a positive index requires the predecessor
query to succeed. -/
def checkChains (cluster : Cluster) (pod : Pod) (g : String) : List (String × String) → Bool
  | [] => true
  | kv :: rest =>
    if isChainKey kv.1 then
      match atoi? kv.2 with
      | none => false
      | some i =>
        if 0 < i then lesserOk cluster pod g kv.1 i && checkChains cluster pod g rest
        else checkChains cluster pod g rest
    else checkChains cluster pod g rest

/-- sophos.AreLesserOrderPodsScheduled (src/unnamed/part_000 lines 16-63 and
360-407): the admission gate of the NetworkSloAware PreFilter. -/
def AreLesserOrderPodsScheduled (cluster : Cluster) (pod : Pod) : Bool :=
  match lookupS pod.labels "app-group" with
  | none => false
  | some g => checkChains cluster pod g pod.labels

/-- The chain-label loop of ArePodsNeighbors.  A parse failure of either
side is only logged in the source: the Go zero value 0.0 is then used for
the comparison, modelled by `Option.getD 0`. -/
def chainNeighborScan (peer : Pod) : List (String × String) → Bool
  | [] => false
  | kv :: rest =>
    if isChainKey kv.1 then
      let index := (parseFloat? kv.2).getD 0
      match lookupS peer.labels kv.1 with
      | some pv =>
        let peerIndex := (parseFloat? pv).getD 0
        if truncRat |index - peerIndex| = 1 then true
        else chainNeighborScan peer rest
      | none => chainNeighborScan peer rest
    else chainNeighborScan peer rest

/-- sophos.ArePodsNeighbors (src/unnamed/part_000 lines 65-104 and 409-448). -/
def ArePodsNeighbors (pod peer : Pod) : Bool :=
  match lookupS pod.labels "app-group", lookupS peer.labels "app-group" with
  | some g, some pg => if g = pg then chainNeighborScan peer pod.labels else false
  | _, _ => false

/-- The chain-label loop of GetSharedChainsSlos.  An unparsable own stage
value, a missing SLO annotation or an unparsable SLO annotation each return
the accumulator collected so far (the Go `return chainsSlos`); an
unparsable peer value is only logged and read as 0.0. -/
def chainSloScan (pod peer : Pod) : List (String × String) → List ℚ → List ℚ
  | [], acc => acc
  | kv :: rest, acc =>
    if isChainKey kv.1 then
      match parseFloat? kv.2 with
      | none => acc
      | some index =>
        match lookupS peer.labels kv.1 with
        | some pv =>
          let peerIndex := (parseFloat? pv).getD 0
          if truncRat |index - peerIndex| = 1 then
            match lookupS pod.annotations (kv.1 ++ "-slo") with
            | none => acc
            | some sloStr =>
              match parseFloat? sloStr with
              | none => acc
              | some slo => chainSloScan pod peer rest (acc ++ [slo])
          else chainSloScan pod peer rest acc
        | none => chainSloScan pod peer rest acc
    else chainSloScan pod peer rest acc

/-- sophos.GetSharedChainsSlos (src/unnamed/part_000 lines 106-162 and
450-506). -/
def GetSharedChainsSlos (pod peer : Pod) : List ℚ :=
  match lookupS pod.labels "app-group", lookupS peer.labels "app-group" with
  | some g, some pg => if g = pg then chainSloScan pod peer pod.labels [] else []
  | _, _ => []

/-- Find the replica set `Get` by namespace and name. -/
def findReplicaSet (cluster : Cluster) (ns nm : String) : Option ReplicaSet :=
  cluster.replicaSets.find? fun r => r.ns == ns && r.name == nm

/-- Find the deployment `Get` by namespace and name. -/
def findDeployment (cluster : Cluster) (ns nm : String) : Option Deployment :=
  cluster.deployments.find? fun d => d.ns == ns && d.name == nm

/-- Node lookup through the snapshot shared lister. -/
def findNode (cluster : Cluster) (nm : String) : Option Node :=
  cluster.nodes.find? fun n => n.name == nm

/-- sophos.GetOwnerDeployment (src/unnamed/part_000 lines 338-358): pod →
first owner reference, which must be a ReplicaSet → that replica set's
first owner reference → deployment.  Every failing hop is an error,
modelled as `none`. -/
def GetOwnerDeployment (cluster : Cluster) (pod : Pod) : Option Deployment :=
  match pod.ownerReferences with
  | [] => none
  | ref :: _ =>
    if ref.kind = "ReplicaSet" then
      match findReplicaSet cluster pod.ns ref.name with
      | none => none
      | some rs =>
        match rs.ownerReferences with
        | [] => none
        | rref :: _ => findDeployment cluster rs.ns rref.name
    else none

/-- sophos.GetAppCpuUsage (src/unnamed/part_000 lines 508-528): reads the
cpu-usage annotation of the owning deployment; every failure path
(owner traversal, missing annotation, unparsable annotation) returns 0.0. -/
def GetAppCpuUsage (cluster : Cluster) (pod : Pod) : ℚ :=
  match GetOwnerDeployment cluster pod with
  | none => 0
  | some d =>
    match lookupS d.annotations "cpu-usage" with
    | none => 0
    | some s =>
      match parseFloat? s with
      | none => 0
      | some v => v

/-- sophos.GetAppMemoryUsage (src/unnamed/part_000 lines 530-550). -/
def GetAppMemoryUsage (cluster : Cluster) (pod : Pod) : ℚ :=
  match GetOwnerDeployment cluster pod with
  | none => 0
  | some d =>
    match lookupS d.annotations "memory-usage" with
    | none => 0
    | some s =>
      match parseFloat? s with
      | none => 0
      | some v => v

/-- The earlier pod-annotation variant of GetAppCpuUsage
(src/unnamed/part_000 lines 164-178): reads cpu-usage from the pod's own
annotations. -/
def GetAppCpuUsageFromPod (pod : Pod) : ℚ :=
  match lookupS pod.annotations "cpu-usage" with
  | none => 0
  | some s =>
    match parseFloat? s with
    | none => 0
    | some v => v

/-- The earlier pod-annotation variant of GetAppMemoryUsage
(src/unnamed/part_000 lines 180-194). -/
def GetAppMemoryUsageFromPod (pod : Pod) : ℚ :=
  match lookupS pod.annotations "memory-usage" with
  | none => 0
  | some s =>
    match parseFloat? s with
    | none => 0
    | some v => v

/-- sophos.GetAppRequestsPerSecond (src/unnamed/part_000 lines 552-595):
both pods must share the app-group, the peer must carry an app label, the
owner deployment must resolve, and then the rps annotation is read from the
pod itself (the source reads pod.Annotations although its log messages talk
about the deployment); every failure returns 0.0. -/
def GetAppRequestsPerSecond (cluster : Cluster) (pod peer : Pod) : ℚ :=
  match lookupS pod.labels "app-group", lookupS peer.labels "app-group" with
  | some g, some pg =>
    if g = pg then
      match lookupS peer.labels "app" with
      | none => 0
      | some peerApp =>
        match GetOwnerDeployment cluster pod with
        | none => 0
        | some _ =>
          match lookupS pod.annotations ("rps." ++ peerApp) with
          | none => 0
          | some s =>
            match parseFloat? s with
            | none => 0
            | some v => v
    else 0
  | _, _ => 0

/-- sophos.GetNodeLatency (src/unnamed/part_000 lines 306-320 and
674-688): one-way latency read from the candidate node's annotations,
0.0 when absent or unparsable. -/
def GetNodeLatency (node peer : Node) : ℚ :=
  match lookupS node.annotations ("network-latency." ++ peer.name) with
  | none => 0
  | some s =>
    match parseFloat? s with
    | none => 0
    | some v => v

/-- Pods List call with the field selector spec.nodeName=name, in the
pod's namespace. -/
def podsOnNode (cluster : Cluster) (ns nodeName : String) : List Pod :=
  cluster.pods.filter fun p => p.ns == ns && p.nodeName == nodeName

/-- The innermost loop of NetworkSloAware.Score: one int64 subtraction per
shared SLO budget, wrapping like Go int64 arithmetic. -/
def sloFold (lat rps : ℚ) (slos : List ℚ) (score : Int) : Int :=
  slos.foldl (fun s slo => wrap64 (s - truncRat (lat * (rps + 100) / slo))) score

/-- NetworkSloAware.Score (src/unnamed/part_000 lines 743-780): for every
cluster node, for every pod bound to it that is a pipeline neighbor of the
scored pod, subtract latency * (rps + 100) / slo for every shared SLO
budget.  `none` models the error status when the candidate node lookup
fails; the List calls are total over the modelled snapshot. -/
def NetworkSloAwareScore (cluster : Cluster) (pod : Pod) (nodeName : String) : Option Int :=
  match findNode cluster nodeName with
  | none => none
  | some node =>
    some (cluster.nodes.foldl (fun score cn =>
      (podsOnNode cluster pod.ns cn.name).foldl (fun score peer =>
        if ArePodsNeighbors pod peer then
          sloFold (GetNodeLatency node cn) (GetAppRequestsPerSecond cluster pod peer)
            (GetSharedChainsSlos pod peer) score
        else score) score) 0)

/-- Sum of the truncated SLO terms of one (pod, peer) pair. -/
def pairSloSum (lat rps : ℚ) (slos : List ℚ) : Int :=
  (slos.map fun slo => truncRat (lat * (rps + 100) / slo)).sum

/-- Sum of the absolute values of the SLO terms of one pair. -/
def pairSloAbs (lat rps : ℚ) (slos : List ℚ) : Int :=
  (slos.map fun slo => |truncRat (lat * (rps + 100) / slo)|).sum

/-- Total cost one peer contributes to the raw SLO score. -/
def peerSloCost (cluster : Cluster) (pod : Pod) (node cn : Node) (peer : Pod) : Int :=
  if ArePodsNeighbors pod peer then
    pairSloSum (GetNodeLatency node cn) (GetAppRequestsPerSecond cluster pod peer)
      (GetSharedChainsSlos pod peer)
  else 0

/-- Absolute-value bound of one peer's contribution. -/
def peerSloCostAbs (cluster : Cluster) (pod : Pod) (node cn : Node) (peer : Pod) : Int :=
  if ArePodsNeighbors pod peer then
    pairSloAbs (GetNodeLatency node cn) (GetAppRequestsPerSecond cluster pod peer)
      (GetSharedChainsSlos pod peer)
  else 0

/-- Total SLO cost accumulated over every node and every neighbor. -/
def totalSloCost (cluster : Cluster) (pod : Pod) (node : Node) : Int :=
  (cluster.nodes.map fun cn =>
    ((podsOnNode cluster pod.ns cn.name).map (peerSloCost cluster pod node cn)).sum).sum

/-- Sum of the absolute values of every SLO term of the whole score. -/
def totalSloCostAbs (cluster : Cluster) (pod : Pod) (node : Node) : Int :=
  (cluster.nodes.map fun cn =>
    ((podsOnNode cluster pod.ns cn.name).map (peerSloCostAbs cluster pod node cn)).sum).sum

/-- NormalizeScore, with identical bodies in NetworkSloAware.NormalizeScore
(src/unnamed/part_000 lines 786-813) and
LoadAwareResourcesBalancedAllocation.NormalizeScore
(loadawareresourcesbalancedallocation.go lines 50-77): find the extreme
raw values (one Go loop computes both; two independent folds here), then
rescale every score with int64 arithmetic, wrapping on overflow.  The
fold start values are -math.MaxInt64 and math.MaxInt64. -/
def NormalizeScore (scores : List NodeScore) : List NodeScore :=
  let highest := scores.foldl (fun h s => if s.score > h then s.score else h) (-(2 ^ 63 - 1))
  let lowest := scores.foldl (fun l s => if s.score < l then s.score else l) (2 ^ 63 - 1)
  let oldRange := wrap64 (highest - lowest)
  let newRange := MaxNodeScore - MinNodeScore
  scores.map fun s =>
    if oldRange = 0 then { s with score := MinNodeScore }
    else
      { s with
        score := wrap64 (int64Div (wrap64 (wrap64 (s.score - lowest) * newRange)) oldRange
          + MinNodeScore) }

/-- The normalization map as the specification words it: exact integer
arithmetic, `lowest`/`highest` the true minimum and maximum of the list,
truncating division, every output the range minimum in the degenerate
case. -/
def normalizeSpec : List Int → List Int
  | [] => []
  | x :: xs =>
    let lo := xs.foldl min x
    let hi := xs.foldl max x
    (x :: xs).map fun s =>
      if lo = hi then MinNodeScore
      else Int.tdiv ((s - lo) * (MaxNodeScore - MinNodeScore)) (hi - lo) + MinNodeScore

/-- Score projection of NormalizeScore: the same computation on the bare
int64 values, used to relate the code to the specification formula. -/
def normalizeInts (l : List Int) : List Int :=
  let highest := l.foldl (fun h s => if s > h then s else h) (-(2 ^ 63 - 1))
  let lowest := l.foldl (fun w s => if s < w then s else w) (2 ^ 63 - 1)
  let oldRange := wrap64 (highest - lowest)
  let newRange := MaxNodeScore - MinNodeScore
  l.map fun s =>
    if oldRange = 0 then MinNodeScore
    else wrap64 (int64Div (wrap64 (wrap64 (s - lowest) * newRange)) oldRange + MinNodeScore)

/-- The spec reading of the admission condition for a single chain label
entry: an entry that is not a stage key, does not parse, or holds index 0
never blocks; an entry with parsed index above 0 requires the predecessor
query to find at least one pod, all bound. -/
def readyBody (cluster : Cluster) (pod : Pod) (g : String) (kv : String × String) : Bool :=
  if isChainKey kv.1 then
    match atoi? kv.2 with
    | none => true
    | some i => if 0 < i then lesserOk cluster pod g kv.1 i else true
  else true

/-- The claim reading of the admission check: every stage key with index
above 0 has at least one predecessor at index - 1 in the group, and all
found predecessors are bound. -/
def readySpecC1 (cluster : Cluster) (pod : Pod) (g : String) : Bool :=
  pod.labels.all (readyBody cluster pod g)

/-- The claim reading of the neighbor test: both pods carry equal
app-group labels and some shared stage key has integer stage indices that
differ by exactly 1 (stage indices are integers in the specification's
data model). -/
def specNeighborsC6 (a b : Pod) : Bool :=
  match lookupS a.labels "app-group", lookupS b.labels "app-group" with
  | some g, some pg =>
    g = pg && a.labels.any fun kv =>
      isChainKey kv.1 &&
      match atoi? kv.2, lookupS b.labels kv.1 with
      | some ia, some vb =>
        match atoi? vb with
        | some ib => decide (ia - ib = 1 ∨ ib - ia = 1)
        | none => false
      | _, _ => false
  | _, _ => false

/-- The claim reading of the shared SLO lookup: every neighboring stage
key contributes its parsed SLO budget, a key with a missing or unparsable
budget is dropped silently, and the scan never stops early. -/
def specSharedSlosC5 (pod peer : Pod) : List ℚ :=
  match lookupS pod.labels "app-group", lookupS peer.labels "app-group" with
  | some g, some pg =>
    if g = pg then
      pod.labels.filterMap fun kv =>
        if isChainKey kv.1 then
          match atoi? kv.2, lookupS peer.labels kv.1 with
          | some ia, some vb =>
            match atoi? vb with
            | some ib =>
              if ia - ib = 1 ∨ ib - ia = 1 then
                (lookupS pod.annotations (kv.1 ++ "-slo")).bind parseFloat?
              else none
            | none => none
          | _, _ => none
        else none
    else []
  | _, _ => []

/-- A stage-label entry of the scanned pod at which chainSloScan stops:
its own value does not parse, or the key qualifies as neighboring but its
SLO annotation is missing or unparsable. -/
def sloBadKey (pod peer : Pod) (k v : String) : Prop :=
  parseFloat? v = none ∨
  ∃ idx, parseFloat? v = some idx ∧
    ∃ pv, lookupS peer.labels k = some pv ∧
      truncRat |idx - (parseFloat? pv).getD 0| = 1 ∧
      (lookupS pod.annotations (k ++ "-slo") = none ∨
       ∃ s, lookupS pod.annotations (k ++ "-slo") = some s ∧ parseFloat? s = none)


/-- A cluster with nothing in it. -/
def emptyCluster : Cluster := ⟨[], [], [], []⟩

/-- Scenario 2 predecessor: chain-pipe=0, same group, bound to a node. -/
def w0Pod : Pod := ⟨"w0", "default", [("app-group", "g"), ("chain-pipe", "0")], [], "n1", []⟩

/-- Scenario 2 workload: chain-pipe=1. -/
def w1Pod : Pod := ⟨"w1", "default", [("app-group", "g"), ("chain-pipe", "1")], [], "", []⟩

/-- Scenario 2 cluster. -/
def c1Cluster : Cluster := ⟨[w0Pod], [], [], []⟩

/-- A workload with one satisfied positive stage key and one unparsable
chain label. -/
def c1xPod : Pod :=
  ⟨"cx", "default", [("app-group", "g"), ("chain-a", "1"), ("chain-b", "xyz")], [], "", []⟩

/-- A bound predecessor for c1xPod's chain-a stage. -/
def c1xPred : Pod := ⟨"cp", "default", [("app-group", "g"), ("chain-a", "0")], [], "n1", []⟩

/-- Cluster holding the bound predecessor. -/
def c1xCluster : Cluster := ⟨[c1xPred], [], [], []⟩

/-- Scenario 5 raw scores. -/
def c2Scores : List NodeScore := [⟨"a", 10⟩, ⟨"b", 20⟩, ⟨"c", 30⟩]

/-- Raw scores whose affine product overflows int64. -/
def c2xScores : List NodeScore := [⟨"a", 0⟩, ⟨"b", 3 * 2 ^ 60⟩]

/-- Overflowing raw scores in the other order. -/
def c10xScores : List NodeScore := [⟨"a", 3 * 2 ^ 60⟩, ⟨"b", 0⟩]

/-- Scenario 6 raw scores. -/
def c10wScores : List NodeScore := [⟨"a", 5⟩, ⟨"b", 5⟩, ⟨"c", 5⟩]

/-- A pod whose chain-x label value does not parse. -/
def c3aPod : Pod := ⟨"p3a", "default", [("app-group", "g"), ("chain-x", "abc")], [], "", []⟩

/-- A peer at stage index 1 on chain-x. -/
def c3bPod : Pod := ⟨"p3b", "default", [("app-group", "g"), ("chain-x", "1")], [], "", []⟩

/-- A pod with no owner references but with its own usage annotations. -/
def c4Pod : Pod :=
  ⟨"p4", "default", [], [("cpu-usage", "5"), ("memory-usage", "7")], "", []⟩

/-- A pod whose first two chain keys both neighbor the peer; only the
second key carries an SLO annotation. -/
def c5Pod : Pod :=
  ⟨"p5", "default", [("app-group", "g"), ("chain-a", "0"), ("chain-b", "0")],
    [("chain-b-slo", "20")], "", []⟩

/-- Peer one stage downstream on both chain-a and chain-b. -/
def c5Peer : Pod :=
  ⟨"q5", "default", [("app-group", "g"), ("chain-a", "1"), ("chain-b", "1")], [], "", []⟩

/-- A pod with no labels at all. -/
def blankPod : Pod := ⟨"blank", "default", [], [], "", []⟩

/-- Stage index 0 on chain-x. -/
def c6aPod : Pod := ⟨"p6a", "default", [("app-group", "g"), ("chain-x", "0")], [], "", []⟩

/-- Stage value 1.5 on chain-x: parses as a float, not an integer index. -/
def c6bPod : Pod := ⟨"p6b", "default", [("app-group", "g"), ("chain-x", "1.5")], [], "", []⟩

/-- Neighbor witness pod at stage 1. -/
def c6wA : Pod := ⟨"p6wa", "default", [("app-group", "g"), ("chain-y", "1")], [], "", []⟩

/-- Neighbor witness pod at stage 2. -/
def c6wB : Pod := ⟨"p6wb", "default", [("app-group", "g"), ("chain-y", "2")], [], "", []⟩

/-- A pod with no stage keys and no app-group label. -/
def c7xPod : Pod := ⟨"p7", "default", [("x", "y")], [], "", []⟩

/-- A pod with the app-group label and a single index-0 stage key. -/
def c7wPod : Pod := ⟨"p7w", "default", [("app-group", "g"), ("chain-z", "0")], [], "", []⟩

/-- Candidate node with latency 10 to n2. -/
def c8n1 : Node := ⟨"n1", [("network-latency.n2", "10")]⟩

/-- Peer node hosting the neighbor pod. -/
def c8n2 : Node := ⟨"n2", []⟩

/-- Neighbor peer bound to n2: same group, app b, stage 0. -/
def c8Peer : Pod :=
  ⟨"b", "default", [("app-group", "g"), ("app", "b"), ("chain-x", "0")], [], "n2", []⟩

/-- Scored workload: stage 1 on chain-x, SLO budget 20, rps 50 toward b,
owned by a replica set that belongs to a deployment. -/
def c8Pod : Pod :=
  ⟨"a", "default", [("app-group", "g"), ("app", "a"), ("chain-x", "1")],
    [("chain-x-slo", "20"), ("rps.b", "50")], "", [⟨"ReplicaSet", "rs1"⟩]⟩

/-- Owner replica set of c8Pod. -/
def c8Rs : ReplicaSet := ⟨"rs1", "default", [⟨"Deployment", "d1"⟩]⟩

/-- Owner deployment of c8Rs. -/
def c8Dep : Deployment := ⟨"d1", "default", []⟩

/-- Scenario 4 cluster. -/
def c8Cluster : Cluster := ⟨[c8Peer], [c8Rs], [c8Dep], [c8n1, c8n2]⟩

/-- Symmetry witness pod at stage 2. -/
def c9aPod : Pod := ⟨"p9a", "default", [("app-group", "g"), ("chain-k", "2")], [], "", []⟩

/-- Symmetry witness pod at stage 3. -/
def c9bPod : Pod := ⟨"p9b", "default", [("app-group", "g"), ("chain-k", "3")], [], "", []⟩


/-! ## Helper lemmas -/

theorem wrap64_eq_self {n : Int} (h1 : -(2 ^ 63) ≤ n) (h2 : n < 2 ^ 63) : wrap64 n = n := by
  unfold wrap64
  have h3 : (0 : Int) ≤ n + 2 ^ 63 := by omega
  have h4 : n + 2 ^ 63 < 2 ^ 64 := by omega
  rw [Int.emod_eq_of_lt h3 h4]
  omega

theorem lookupS_eq_some_iff {l : List (String × String)} (h : keysNodup l) {k v : String} :
    lookupS l k = some v ↔ (k, v) ∈ l := by
  induction l with
  | nil => simp [lookupS]
  | cons kv rest ih =>
    obtain ⟨k1, v1⟩ := kv
    simp only [keysNodup, List.map_cons, List.nodup_cons] at h
    by_cases hk : k1 = k
    · subst hk
      have hnot : (k1, v) ∉ rest := fun hm =>
        h.1 (by simpa using List.mem_map_of_mem Prod.fst hm)
      rw [lookupS, if_pos rfl]
      simp only [Option.some.injEq, List.mem_cons, Prod.mk.injEq]
      constructor
      · rintro rfl
        exact Or.inl (by simp)
      · rintro (⟨-, rfl⟩ | hm)
        · rfl
        · exact absurd hm hnot
    · rw [lookupS, if_neg hk, ih h.2]
      simp only [List.mem_cons, Prod.mk.injEq]
      constructor
      · exact Or.inr
      · rintro (⟨rfl, -⟩ | hm)
        · exact absurd rfl hk
        · exact hm

theorem chainNeighborScan_eq_true_iff (peer : Pod) (l : List (String × String)) :
    chainNeighborScan peer l = true ↔
      ∃ kv ∈ l, isChainKey kv.1 = true ∧
        ∃ pv, lookupS peer.labels kv.1 = some pv ∧
          truncRat |(parseFloat? kv.2).getD 0 - (parseFloat? pv).getD 0| = 1 := by
  induction l with
  | nil => simp [chainNeighborScan]
  | cons kv rest ih =>
    simp only [chainNeighborScan]
    by_cases hc : isChainKey kv.1 = true
    · rw [if_pos hc]
      rcases hpv : lookupS peer.labels kv.1 with _ | pv
      · dsimp only
        simp only [ih, List.mem_cons]
        constructor
        · rintro ⟨kv', hmem, hrest⟩
          exact ⟨kv', Or.inr hmem, hrest⟩
        · rintro ⟨kv', hkv' | hmem, hck, pv, hlp, htr⟩
          · subst hkv'
            rw [hpv] at hlp
            exact absurd hlp (by simp)
          · exact ⟨kv', hmem, hck, pv, hlp, htr⟩
      · dsimp only
        by_cases htr : truncRat |(parseFloat? kv.2).getD 0 - (parseFloat? pv).getD 0| = 1
        · simp only [if_pos htr, true_iff]
          exact ⟨kv, List.mem_cons_self kv rest, hc, pv, hpv, htr⟩
        · rw [if_neg htr]
          simp only [ih, List.mem_cons]
          constructor
          · rintro ⟨kv', hmem, hrest⟩
            exact ⟨kv', Or.inr hmem, hrest⟩
          · rintro ⟨kv', hkv' | hmem, hck, pv', hlp, htr'⟩
            · subst hkv'
              rw [hpv] at hlp
              cases hlp
              exact absurd htr' htr
            · exact ⟨kv', hmem, hck, pv', hlp, htr'⟩
    · rw [if_neg hc]
      simp only [ih, List.mem_cons]
      constructor
      · rintro ⟨kv', hmem, hrest⟩
        exact ⟨kv', Or.inr hmem, hrest⟩
      · rintro ⟨kv', hkv' | hmem, hck, hrest⟩
        · subst hkv'
          exact absurd hck hc
        · exact ⟨kv', hmem, hck, hrest⟩

theorem arePodsNeighbors_eq_true_iff (a b : Pod) (ha : keysNodup a.labels) :
    ArePodsNeighbors a b = true ↔
      (∃ g, lookupS a.labels "app-group" = some g ∧ lookupS b.labels "app-group" = some g) ∧
      ∃ k va vb, lookupS a.labels k = some va ∧ lookupS b.labels k = some vb ∧
        isChainKey k = true ∧
        truncRat |(parseFloat? va).getD 0 - (parseFloat? vb).getD 0| = 1 := by
  unfold ArePodsNeighbors
  rcases hga : lookupS a.labels "app-group" with _ | g
  · simp only [Bool.false_eq_true, false_iff]
    rintro ⟨⟨g, hg, _⟩, _⟩
    exact absurd hg (by simp)
  · rcases hgb : lookupS b.labels "app-group" with _ | pg
    · simp only [Bool.false_eq_true, false_iff]
      rintro ⟨⟨g', _, hg⟩, _⟩
      exact absurd hg (by simp)
    · by_cases hgg : g = pg
      · subst hgg
        dsimp only
        rw [if_pos rfl, chainNeighborScan_eq_true_iff]
        constructor
        · rintro ⟨kv, hmem, hck, pv, hlp, htr⟩
          exact ⟨⟨g, rfl, rfl⟩,
            kv.1, kv.2, pv, (lookupS_eq_some_iff ha).mpr hmem, hlp, hck, htr⟩
        · rintro ⟨-, k, va, vb, hla, hlb, hck, htr⟩
          exact ⟨(k, va), (lookupS_eq_some_iff ha).mp hla, hck, vb, hlb, htr⟩
      · dsimp only
        rw [if_neg hgg]
        simp only [Bool.false_eq_true, false_iff]
        rintro ⟨⟨g', hg1, hg2⟩, -⟩
        cases hg1
        cases hg2
        exact hgg rfl

theorem checkChains_of_zero (cluster : Cluster) (pod : Pod) (g : String)
    (l : List (String × String))
    (h : ∀ kv ∈ l, isChainKey kv.1 = true → atoi? kv.2 = some 0) :
    checkChains cluster pod g l = true := by
  induction l with
  | nil => rfl
  | cons kv rest ih =>
    have hrest : ∀ kv ∈ rest, isChainKey kv.1 = true → atoi? kv.2 = some 0 :=
      fun kv hm => h kv (List.mem_cons_of_mem _ hm)
    simp only [checkChains]
    by_cases hc : isChainKey kv.1 = true
    · rw [if_pos hc, h kv (List.mem_cons_self kv rest) hc]
      dsimp only
      rw [if_neg (lt_irrefl (0 : Int))]
      exact ih hrest
    · rw [if_neg hc]
      exact ih hrest

theorem checkChains_eq_all (cluster : Cluster) (pod : Pod) (g : String)
    (l : List (String × String))
    (hp : ∀ kv ∈ l, isChainKey kv.1 = true → (atoi? kv.2).isSome = true) :
    checkChains cluster pod g l = l.all (readyBody cluster pod g) := by
  induction l with
  | nil => rfl
  | cons kv rest ih =>
    have hrest : ∀ kv ∈ rest, isChainKey kv.1 = true → (atoi? kv.2).isSome = true :=
      fun kv hm => hp kv (List.mem_cons_of_mem _ hm)
    simp only [checkChains, List.all_cons]
    by_cases hc : isChainKey kv.1 = true
    · rw [if_pos hc]
      rcases hv : atoi? kv.2 with _ | i
      · have := hp kv (List.mem_cons_self kv rest) hc
        rw [hv] at this
        simp at this
      · dsimp only
        rw [show readyBody cluster pod g kv
            = if 0 < i then lesserOk cluster pod g kv.1 i else true from by
          unfold readyBody
          rw [if_pos hc, hv]]
        by_cases hi : 0 < i
        · rw [if_pos hi, if_pos hi, ih hrest]
        · rw [if_neg hi, if_neg hi, ih hrest, Bool.true_and]
    · rw [if_neg hc]
      rw [show readyBody cluster pod g kv = true from by
        unfold readyBody
        rw [if_neg hc]]
      rw [ih hrest, Bool.true_and]

/-! ## Claim theorems -/

/-- C9: for every pair of workloads (with the duplicate-free label maps a
Go map guarantees), ArePodsNeighbors is symmetric: the group test and the
existence of a shared chain key with truncated index distance 1 are both
symmetric in the two pods. -/
theorem c9_neighbors_symm (a b : Pod) (ha : keysNodup a.labels) (hb : keysNodup b.labels) :
    ArePodsNeighbors a b = ArePodsNeighbors b a := by
  have h : (ArePodsNeighbors a b = true) ↔ (ArePodsNeighbors b a = true) := by
    rw [arePodsNeighbors_eq_true_iff a b ha, arePodsNeighbors_eq_true_iff b a hb]
    constructor
    · rintro ⟨⟨g, hg1, hg2⟩, k, va, vb, hla, hlb, hck, htr⟩
      refine ⟨⟨g, hg2, hg1⟩, k, vb, va, hlb, hla, hck, ?_⟩
      rw [abs_sub_comm]
      exact htr
    · rintro ⟨⟨g, hg1, hg2⟩, k, vb, va, hlb, hla, hck, htr⟩
      refine ⟨⟨g, hg2, hg1⟩, k, va, vb, hla, hlb, hck, ?_⟩
      rw [abs_sub_comm]
      exact htr
  cases hab : ArePodsNeighbors a b
  · cases hba : ArePodsNeighbors b a
    · rfl
    · have := h.mpr hba
      rw [hab] at this
      simp at this
  · exact (h.mp hab).symm

/-- C9 witness: two concrete pods at stage indices 2 and 3 of the same
chain, checked in both directions. -/
theorem c9_neighbors_symm_witness :
    keysNodup c9aPod.labels ∧ keysNodup c9bPod.labels ∧
      ArePodsNeighbors c9aPod c9bPod = ArePodsNeighbors c9bPod c9aPod :=
  ⟨by with_unfolding_all decide, by with_unfolding_all decide, c9_neighbors_symm c9aPod c9bPod (by with_unfolding_all decide) (by with_unfolding_all decide)⟩

/-- C6 (amended): areNeighbors returns true iff both pods carry equal
app-group labels and some chain key present on both has label values
whose float parses (an unparsable value reading as 0) differ by an amount
whose int64 truncation is exactly 1, i.e. lies in [1, 2); it is false
whenever the groups differ or either group label is absent. -/
theorem c6_neighbors_iff_amended (a b : Pod) (ha : keysNodup a.labels) :
    ArePodsNeighbors a b = true ↔
      (∃ g, lookupS a.labels "app-group" = some g ∧ lookupS b.labels "app-group" = some g) ∧
      ∃ k va vb, lookupS a.labels k = some va ∧ lookupS b.labels k = some vb ∧
        isChainKey k = true ∧
        truncRat |(parseFloat? va).getD 0 - (parseFloat? vb).getD 0| = 1 :=
  arePodsNeighbors_eq_true_iff a b ha

/-- C6 witness: two concrete pods at integer stages 1 and 2. -/
theorem c6_neighbors_iff_witness :
    keysNodup c6wA.labels ∧
      (ArePodsNeighbors c6wA c6wB = true ↔
        (∃ g, lookupS c6wA.labels "app-group" = some g ∧
          lookupS c6wB.labels "app-group" = some g) ∧
        ∃ k va vb, lookupS c6wA.labels k = some va ∧ lookupS c6wB.labels k = some vb ∧
          isChainKey k = true ∧
          truncRat |(parseFloat? va).getD 0 - (parseFloat? vb).getD 0| = 1) :=
  ⟨by with_unfolding_all decide, c6_neighbors_iff_amended c6wA c6wB (by with_unfolding_all decide)⟩

/-- C6 counterexample: stage values 0 and 1.5 do not differ by exactly 1
as stage indices (1.5 is not even an integer index), yet the code declares
the pods neighbors because int64(1.5) = 1. -/
theorem c6_neighbors_counterexample :
    ArePodsNeighbors c6aPod c6bPod = true ∧ specNeighborsC6 c6aPod c6bPod = false :=
  ⟨by with_unfolding_all decide, by with_unfolding_all decide⟩

/-- C3: the code evaluated at a workload whose chain-x value "abc" does
not parse.  ArePodsNeighbors treats the unparsable value as stage index 0
(the Go zero value after the logged ParseFloat error) and declares the
pods neighbors, and AreLesserOrderPodsScheduled fails the whole gate
instead of skipping the dimension — the workload is never treated as
simply not participating. -/
theorem c3_unparsable_treated_as_zero :
    parseFloat? "abc" = none ∧ atoi? "abc" = none ∧
      lookupS c3aPod.labels "chain-x" = some "abc" ∧
      ArePodsNeighbors c3aPod c3bPod = true ∧
      AreLesserOrderPodsScheduled emptyCluster c3aPod = false :=
  ⟨by with_unfolding_all decide, by with_unfolding_all decide, by with_unfolding_all decide, by with_unfolding_all decide, by with_unfolding_all decide⟩

/-- C4 (amended): when the owner traversal fails, the predicted CPU and
memory usage reads return 0.0 unconditionally; the workload's own
annotations are not consulted. -/
theorem c4_owner_failure_zero_amended (cluster : Cluster) (pod : Pod)
    (h : GetOwnerDeployment cluster pod = none) :
    GetAppCpuUsage cluster pod = 0 ∧ GetAppMemoryUsage cluster pod = 0 := by
  unfold GetAppCpuUsage GetAppMemoryUsage
  rw [h]
  exact ⟨rfl, rfl⟩

/-- C4 witness: a pod with no owner references in an empty cluster. -/
theorem c4_owner_failure_zero_witness :
    GetOwnerDeployment emptyCluster c4Pod = none ∧
      (GetAppCpuUsage emptyCluster c4Pod = 0 ∧ GetAppMemoryUsage emptyCluster c4Pod = 0) :=
  ⟨by with_unfolding_all decide, c4_owner_failure_zero_amended emptyCluster c4Pod (by with_unfolding_all decide)⟩

/-- C4 counterexample: the owner traversal fails and the pod's own
annotations parse to cpu 5 and memory 7, yet the scorer's reads return 0,
not the pod-annotation fallback the claim describes. -/
theorem c4_no_fallback_counterexample :
    GetOwnerDeployment emptyCluster c4Pod = none ∧
      GetAppCpuUsageFromPod c4Pod = 5 ∧ GetAppMemoryUsageFromPod c4Pod = 7 ∧
      GetAppCpuUsage emptyCluster c4Pod = 0 ∧ GetAppMemoryUsage emptyCluster c4Pod = 0 ∧
      GetAppCpuUsage emptyCluster c4Pod ≠ GetAppCpuUsageFromPod c4Pod :=
  ⟨by with_unfolding_all decide, by with_unfolding_all decide, by with_unfolding_all decide, by with_unfolding_all decide, by with_unfolding_all decide, by with_unfolding_all decide⟩

/-- C7 (amended): every workload that carries the app-group label and
whose chain-prefixed labels (if any) all parse to index 0 passes the
admission gate, whatever the cluster contents. -/
theorem c7_ready_amended (cluster : Cluster) (pod : Pod) (g : String)
    (hg : lookupS pod.labels "app-group" = some g)
    (h0 : ∀ kv ∈ pod.labels, isChainKey kv.1 = true → atoi? kv.2 = some 0) :
    AreLesserOrderPodsScheduled cluster pod = true := by
  unfold AreLesserOrderPodsScheduled
  rw [hg]
  exact checkChains_of_zero cluster pod g pod.labels h0

/-- C7 witness: a pod with the app-group label and one index-0 stage key. -/
theorem c7_ready_witness :
    lookupS c7wPod.labels "app-group" = some "g" ∧
      AreLesserOrderPodsScheduled emptyCluster c7wPod = true :=
  ⟨by with_unfolding_all decide, c7_ready_amended emptyCluster c7wPod "g" (by with_unfolding_all decide) (by with_unfolding_all decide)⟩

/-- C7 counterexample: a workload with no stage keys at all, but without
the app-group label, is rejected by the gate, though the claim says every
workload with no stage keys is ready. -/
theorem c7_ready_counterexample :
    (c7xPod.labels.all fun kv => !(isChainKey kv.1)) = true ∧
      AreLesserOrderPodsScheduled emptyCluster c7xPod = false :=
  ⟨by with_unfolding_all decide, by with_unfolding_all decide⟩

/-- C1 (amended): for every workload carrying the app-group label whose
chain-prefixed label values all parse as integers, and which has some
stage key with index above 0, the gate returns true iff every stage key
with parsed index i above 0 has at least one pod in the same group and
namespace carrying that key at the decimal rendering of i - 1, all of
them bound to a node.  (An unparsable chain label instead fails the gate
outright, whatever the other keys say.) -/
theorem c1_isReady_iff_amended (cluster : Cluster) (pod : Pod) (g : String)
    (hg : lookupS pod.labels "app-group" = some g)
    (hp : ∀ kv ∈ pod.labels, isChainKey kv.1 = true → (atoi? kv.2).isSome = true)
    (_hpos : ∃ kv ∈ pod.labels, isChainKey kv.1 = true ∧ ∃ i, atoi? kv.2 = some i ∧ 0 < i) :
    AreLesserOrderPodsScheduled cluster pod = readySpecC1 cluster pod g := by
  unfold AreLesserOrderPodsScheduled readySpecC1
  rw [hg]
  exact checkChains_eq_all cluster pod g pod.labels hp

/-- C1 witness, the specification's Scenario 2: W1 at chain-pipe=1 with a
bound W0 at chain-pipe=0 in the same group is admitted. -/
theorem c1_isReady_witness :
    AreLesserOrderPodsScheduled c1Cluster w1Pod = true :=
  (c1_isReady_iff_amended c1Cluster w1Pod "g" (by with_unfolding_all decide) (by with_unfolding_all decide)
    ⟨("chain-pipe", "1"), by with_unfolding_all decide, by with_unfolding_all decide, 1, by with_unfolding_all decide, by with_unfolding_all decide⟩).trans (by with_unfolding_all decide)

/-- C1 counterexample: the workload carries app-group and a satisfied
positive stage key chain-a=1 (its predecessor exists and is bound), so
the claimed condition holds, but an additional unparsable chain-b label
makes the gate return false. -/
theorem c1_claim_counterexample :
    lookupS c1xPod.labels "app-group" = some "g" ∧
      (∃ kv ∈ c1xPod.labels, isChainKey kv.1 = true ∧ ∃ i, atoi? kv.2 = some i ∧ 0 < i) ∧
      readySpecC1 c1xCluster c1xPod "g" = true ∧
      AreLesserOrderPodsScheduled c1xCluster c1xPod = false :=
  ⟨by with_unfolding_all decide, ⟨("chain-a", "1"), by with_unfolding_all decide, by with_unfolding_all decide, 1, by with_unfolding_all decide, by with_unfolding_all decide⟩,
    by with_unfolding_all decide, by with_unfolding_all decide⟩

theorem chainSloScan_stop (pod peer : Pod) (k v : String) (l₂ : List (String × String))
    (hck : isChainKey k = true) (hbad : sloBadKey pod peer k v) :
    ∀ (l₁ : List (String × String)) (acc : List ℚ),
      chainSloScan pod peer (l₁ ++ (k, v) :: l₂) acc = chainSloScan pod peer l₁ acc := by
  intro l₁
  induction l₁ with
  | nil =>
    intro acc
    simp only [List.nil_append, chainSloScan]
    rw [if_pos hck]
    rcases hbad with hpf | ⟨idx, hpf, pv, hpv, htr, hslo⟩
    · rw [hpf]
    · rw [hpf]
      dsimp only
      rw [hpv]
      dsimp only
      rw [if_pos htr]
      rcases hslo with hnone | ⟨s, hs, hsp⟩
      · rw [hnone]
      · rw [hs]
        dsimp only
        rw [hsp]
  | cons kv rest ih =>
    intro acc
    simp only [List.cons_append, chainSloScan]
    by_cases hc : isChainKey kv.1 = true
    · rw [if_pos hc, if_pos hc]
      rcases hpf : parseFloat? kv.2 with _ | idx
      · rfl
      · dsimp only
        rcases hpv : lookupS peer.labels kv.1 with _ | pv
        · exact ih acc
        · dsimp only
          by_cases htr : truncRat |idx - (parseFloat? pv).getD 0| = 1
          · rw [if_pos htr, if_pos htr]
            rcases hslo : lookupS pod.annotations (kv.1 ++ "-slo") with _ | s
            · rfl
            · dsimp only
              rcases hsp : parseFloat? s with _ | slo
              · rfl
              · exact ih (acc ++ [slo])
          · rw [if_neg htr, if_neg htr]
            exact ih acc
    · rw [if_neg hc, if_neg hc]
      exact ih acc

/-- C5 (amended): a missing app-group label on either workload makes
GetSharedChainsSlos return the empty sequence; and whenever the label
scan reaches a stage-key entry whose own value does not parse, or which
qualifies as neighboring but whose SLO annotation is missing or
unparsable, the whole scan stops there and only the budgets collected
from entries earlier in iteration order are returned — later qualifying
keys are dropped. -/
theorem c5_shared_slos_amended :
    (∀ p q : Pod, lookupS p.labels "app-group" = none ∨ lookupS q.labels "app-group" = none →
      GetSharedChainsSlos p q = []) ∧
    (∀ (p q : Pod) (g k v : String) (l₁ l₂ : List (String × String)),
      p.labels = l₁ ++ (k, v) :: l₂ →
      lookupS p.labels "app-group" = some g →
      lookupS q.labels "app-group" = some g →
      isChainKey k = true → sloBadKey p q k v →
      GetSharedChainsSlos p q = chainSloScan p q l₁ []) := by
  constructor
  · intro p q h
    unfold GetSharedChainsSlos
    rcases h with h | h
    · rw [h]
    · rw [h]
      rcases hp : lookupS p.labels "app-group" with _ | g
      · rfl
      · rfl
  · intro p q g k v l₁ l₂ hlab hp hq hck hbad
    unfold GetSharedChainsSlos
    rw [hp, hq]
    dsimp only
    rw [if_pos rfl, hlab]
    exact chainSloScan_stop p q k v l₂ hck hbad l₁ []

/-- C5 witness: the group fail-fast at a pod with no labels, and the
early stop at c5Pod whose first stage key chain-a qualifies but has no
SLO annotation. -/
theorem c5_shared_slos_witness :
    GetSharedChainsSlos blankPod c5Peer = [] ∧
      GetSharedChainsSlos c5Pod c5Peer = chainSloScan c5Pod c5Peer [("app-group", "g")] [] :=
  ⟨c5_shared_slos_amended.1 blankPod c5Peer (Or.inl (by with_unfolding_all decide)),
    c5_shared_slos_amended.2 c5Pod c5Peer "g" "chain-a" "0" [("app-group", "g")]
      [("chain-b", "0")] (by with_unfolding_all decide) (by with_unfolding_all decide)
      (by with_unfolding_all decide) (by with_unfolding_all decide)
      (Or.inr ⟨0, by with_unfolding_all decide, "1", by with_unfolding_all decide,
        by with_unfolding_all decide, Or.inl (by with_unfolding_all decide)⟩)⟩

/-- C5 counterexample: chain-a and chain-b both neighbor the peer, the
chain-b SLO annotation parses to 20, but because chain-a (earlier in
iteration order) has no SLO annotation the call returns [] — it does not
return the budget of the other qualifying key as the claim demands. -/
theorem c5_shared_slos_counterexample :
    GetSharedChainsSlos c5Pod c5Peer = [] ∧ specSharedSlosC5 c5Pod c5Peer = [20] ∧
      lookupS c5Pod.annotations "chain-b-slo" = some "20" :=
  ⟨by with_unfolding_all decide, by with_unfolding_all decide, by with_unfolding_all decide⟩

theorem foldl_min_le_init (l : List Int) (a : Int) : l.foldl min a ≤ a := by
  induction l generalizing a with
  | nil => exact le_refl a
  | cons x xs ih => exact le_trans (ih (min a x)) (min_le_left a x)

theorem le_foldl_max (l : List Int) (a : Int) : a ≤ l.foldl max a := by
  induction l generalizing a with
  | nil => exact le_refl a
  | cons x xs ih => exact le_trans (le_max_left a x) (ih (max a x))

theorem foldl_min_le_mem {l : List Int} {x : Int} (hx : x ∈ l) (a : Int) :
    l.foldl min a ≤ x := by
  induction l generalizing a with
  | nil => cases hx
  | cons y ys ih =>
    rcases List.mem_cons.mp hx with rfl | hmem
    · exact le_trans (foldl_min_le_init ys (min a x)) (min_le_right a x)
    · exact ih hmem (min a y)

theorem mem_le_foldl_max {l : List Int} {x : Int} (hx : x ∈ l) (a : Int) :
    x ≤ l.foldl max a := by
  induction l generalizing a with
  | nil => cases hx
  | cons y ys ih =>
    rcases List.mem_cons.mp hx with rfl | hmem
    · exact le_trans (le_max_right a x) (le_foldl_max ys (max a x))
    · exact ih hmem (max a y)

theorem le_foldl_min {l : List Int} {B : Int} (hB : ∀ x ∈ l, B ≤ x) {a : Int} (ha : B ≤ a) :
    B ≤ l.foldl min a := by
  induction l generalizing a with
  | nil => exact ha
  | cons y ys ih =>
    exact ih (fun x hx => hB x (List.mem_cons_of_mem _ hx))
      (le_min ha (hB y (List.mem_cons_self _ _)))

theorem foldl_max_le {l : List Int} {B : Int} (hB : ∀ x ∈ l, x ≤ B) {a : Int} (ha : a ≤ B) :
    l.foldl max a ≤ B := by
  induction l generalizing a with
  | nil => exact ha
  | cons y ys ih =>
    exact ih (fun x hx => hB x (List.mem_cons_of_mem _ hx))
      (max_le ha (hB y (List.mem_cons_self _ _)))

theorem foldl_min_assoc (l : List Int) (a b : Int) :
    l.foldl min (min a b) = min a (l.foldl min b) := by
  induction l generalizing b with
  | nil => rfl
  | cons x xs ih =>
    show xs.foldl min (min (min a b) x) = min a (xs.foldl min (min b x))
    rw [min_assoc, ih]

theorem foldl_max_assoc (l : List Int) (a b : Int) :
    l.foldl max (max a b) = max a (l.foldl max b) := by
  induction l generalizing b with
  | nil => rfl
  | cons x xs ih =>
    show xs.foldl max (max (max a b) x) = max a (xs.foldl max (max b x))
    rw [max_assoc, ih]

theorem foldl_if_lt_eq_min (l : List Int) (a : Int) :
    l.foldl (fun w s => if s < w then s else w) a = l.foldl min a := by
  induction l generalizing a with
  | nil => rfl
  | cons x xs ih =>
    show xs.foldl _ (if x < a then x else a) = xs.foldl min (min a x)
    rw [ih]
    congr 1
    rcases lt_or_ge x a with h | h
    · rw [if_pos h, min_eq_right (le_of_lt h)]
    · rw [if_neg (not_lt.mpr h), min_eq_left h]

theorem foldl_if_gt_eq_max (l : List Int) (a : Int) :
    l.foldl (fun h s => if s > h then s else h) a = l.foldl max a := by
  induction l generalizing a with
  | nil => rfl
  | cons x xs ih =>
    show xs.foldl _ (if a < x then x else a) = xs.foldl max (max a x)
    rw [ih]
    congr 1
    rcases lt_or_ge a x with h | h
    · rw [if_pos h, max_eq_right (le_of_lt h)]
    · rw [if_neg (not_lt.mpr h), max_eq_left h]

theorem tdiv_le_tdiv_of_nonneg {a b c : Int} (ha : 0 ≤ a) (hab : a ≤ b) (hc : 0 < c) :
    a.tdiv c ≤ b.tdiv c := by
  rw [Int.tdiv_eq_ediv ha (le_of_lt hc), Int.tdiv_eq_ediv (le_trans ha hab) (le_of_lt hc)]
  exact Int.ediv_le_ediv hc hab

theorem normalize_div_bounds {y lo hi : Int} (h1 : lo ≤ y) (h2 : y ≤ hi) (hlt : lo < hi) :
    0 ≤ Int.tdiv ((y - lo) * 100) (hi - lo) ∧ Int.tdiv ((y - lo) * 100) (hi - lo) ≤ 100 := by
  have hc : 0 < hi - lo := by omega
  have hnn : 0 ≤ (y - lo) * 100 := mul_nonneg (by omega) (by norm_num)
  refine ⟨Int.tdiv_nonneg hnn (le_of_lt hc), ?_⟩
  have hle : (y - lo) * 100 ≤ (hi - lo) * 100 :=
    mul_le_mul_of_nonneg_right (by omega) (by norm_num)
  calc Int.tdiv ((y - lo) * 100) (hi - lo)
      ≤ Int.tdiv ((hi - lo) * 100) (hi - lo) := tdiv_le_tdiv_of_nonneg hnn hle hc
    _ = 100 := Int.mul_tdiv_cancel_left 100 (by omega)

theorem normalizeScore_map_score (scores : List NodeScore) :
    (NormalizeScore scores).map (fun s => s.score)
      = normalizeInts (scores.map fun s => s.score) := by
  simp only [NormalizeScore, normalizeInts, List.map_map, List.foldl_map]
  apply List.map_congr_left
  intro s _
  dsimp only [Function.comp]
  split <;> rfl

theorem normalizeInts_eq_spec (x : Int) (xs : List Int)
    (hb : ∀ y ∈ x :: xs, |y| ≤ 2 ^ 55) :
    normalizeInts (x :: xs) = normalizeSpec (x :: xs) := by
  have p55 : (2 : Int) ^ 55 = 36028797018963968 := by norm_num
  have hbn : ∀ y ∈ x :: xs, -36028797018963968 ≤ y ∧ y ≤ 36028797018963968 := by
    intro y hy
    have := hb y hy
    rw [p55] at this
    exact abs_le.mp this
  set lo := xs.foldl min x with hlo_def
  set hi := xs.foldl max x with hhi_def
  have hlo_le : ∀ y ∈ x :: xs, lo ≤ y := by
    intro y hy
    rcases List.mem_cons.mp hy with rfl | hmem
    · exact foldl_min_le_init xs y
    · exact foldl_min_le_mem hmem x
  have hhi_ge : ∀ y ∈ x :: xs, y ≤ hi := by
    intro y hy
    rcases List.mem_cons.mp hy with rfl | hmem
    · exact le_foldl_max xs y
    · exact mem_le_foldl_max hmem x
  have hlo_ge : -36028797018963968 ≤ lo :=
    le_foldl_min (fun y hy => (hbn y (List.mem_cons_of_mem _ hy)).1)
      (hbn x (List.mem_cons_self _ _)).1
  have hhi_le : hi ≤ 36028797018963968 :=
    foldl_max_le (fun y hy => (hbn y (List.mem_cons_of_mem _ hy)).2)
      (hbn x (List.mem_cons_self _ _)).2
  have hlo_hi : lo ≤ hi :=
    le_trans (hlo_le x (List.mem_cons_self _ _)) (hhi_ge x (List.mem_cons_self _ _))
  have hlow : (x :: xs).foldl (fun w s => if s < w then s else w) (2 ^ 63 - 1) = lo := by
    rw [foldl_if_lt_eq_min]
    show xs.foldl min (min (2 ^ 63 - 1) x) = lo
    rw [foldl_min_assoc, ← hlo_def]
    exact min_eq_right (by omega)
  have hhigh : (x :: xs).foldl (fun h s => if s > h then s else h) (-(2 ^ 63 - 1)) = hi := by
    rw [foldl_if_gt_eq_max]
    show xs.foldl max (max (-(2 ^ 63 - 1)) x) = hi
    rw [foldl_max_assoc, ← hhi_def]
    exact max_eq_right (by omega)
  have hor : wrap64 (hi - lo) = hi - lo := wrap64_eq_self (by omega) (by omega)
  simp only [normalizeInts, normalizeSpec]
  apply List.map_congr_left
  intro y hy
  have hy_lo : lo ≤ y := hlo_le y hy
  have hy_hi : y ≤ hi := hhi_ge y hy
  rw [hlow, hhigh, hor]
  simp only [MaxNodeScore, MinNodeScore, Int.sub_zero, Int.add_zero]
  by_cases h0 : hi - lo = 0
  · rw [if_pos h0, if_pos (show lo = hi by omega)]
  · rw [if_neg h0, if_neg (show ¬lo = hi by omega)]
    have hlt : lo < hi := by omega
    have w1 : wrap64 (y - lo) = y - lo := wrap64_eq_self (by omega) (by omega)
    have w2 : wrap64 ((y - lo) * 100) = (y - lo) * 100 :=
      wrap64_eq_self (by omega) (by omega)
    obtain ⟨hd0, hd100⟩ := normalize_div_bounds hy_lo hy_hi hlt
    have w3 : wrap64 (Int.tdiv ((y - lo) * 100) (hi - lo))
        = Int.tdiv ((y - lo) * 100) (hi - lo) :=
      wrap64_eq_self (by omega) (by omega)
    rw [w1, w2]
    unfold int64Div
    rw [w3, w3]

theorem normalizeSpec_mem_bounds (x : Int) (xs : List Int) :
    ∀ v ∈ normalizeSpec (x :: xs), MinNodeScore ≤ v ∧ v ≤ MaxNodeScore := by
  intro v hv
  simp only [normalizeSpec] at hv
  rcases List.mem_map.mp hv with ⟨y, hy, rfl⟩
  set lo := xs.foldl min x with hlo_def
  set hi := xs.foldl max x with hhi_def
  have hy_lo : lo ≤ y := by
    rcases List.mem_cons.mp hy with rfl | hmem
    · exact foldl_min_le_init xs y
    · exact foldl_min_le_mem hmem x
  have hy_hi : y ≤ hi := by
    rcases List.mem_cons.mp hy with rfl | hmem
    · exact le_foldl_max xs y
    · exact mem_le_foldl_max hmem x
  simp only [MaxNodeScore, MinNodeScore, Int.sub_zero, Int.add_zero]
  by_cases h0 : lo = hi
  · rw [if_pos h0]
    norm_num
  · rw [if_neg h0]
    have hlt : lo < hi := lt_of_le_of_ne (le_trans hy_lo hy_hi) h0
    exact normalize_div_bounds hy_lo hy_hi hlt

theorem normalizeScore_eq_spec (scores : List NodeScore) (hne : scores ≠ [])
    (hb : ∀ s ∈ scores, |s.score| ≤ 2 ^ 55) :
    (NormalizeScore scores).map (fun s => s.score)
      = normalizeSpec (scores.map fun s => s.score) := by
  rw [normalizeScore_map_score]
  cases scores with
  | nil => exact absurd rfl hne
  | cons s rest =>
    show normalizeInts (s.score :: rest.map fun t => t.score)
        = normalizeSpec (s.score :: rest.map fun t => t.score)
    apply normalizeInts_eq_spec
    intro y hymem
    rcases List.mem_cons.mp hymem with rfl | hmem
    · exact hb s (List.mem_cons_self _ _)
    · rcases List.mem_map.mp hmem with ⟨t, ht, rfl⟩
      exact hb t (List.mem_cons_of_mem _ ht)

/-- C2 (amended): for every non-empty raw score list whose entries all
have absolute value at most 2^55 — so the int64 affine arithmetic cannot
overflow — NormalizeScore maps each raw score to
(raw - lowest) * (rangeMax - rangeMin) / (highest - lowest) + rangeMin
with truncating integer division, where lowest and highest are the list's
minimum and maximum, and every output collapses to rangeMin when they are
equal.  (For larger magnitudes the int64 intermediates wrap and the
affine form fails.) -/
theorem c2_normalize_affine_amended (scores : List NodeScore) (hne : scores ≠ [])
    (hb : ∀ s ∈ scores, |s.score| ≤ 2 ^ 55) :
    (NormalizeScore scores).map (fun s => s.score)
      = normalizeSpec (scores.map fun s => s.score) :=
  normalizeScore_eq_spec scores hne hb

/-- C2 witness, the specification's Scenario 5: raw scores [10, 20, 30]
over range [0, 100] normalize to [0, 50, 100], matching the affine map. -/
theorem c2_normalize_witness :
    c2Scores ≠ [] ∧ (∀ s ∈ c2Scores, |s.score| ≤ 2 ^ 55) ∧
      (NormalizeScore c2Scores).map (fun s => s.score) = [0, 50, 100] :=
  ⟨by decide, by decide,
    (c2_normalize_affine_amended c2Scores (by decide) (by decide)).trans (by decide)⟩

/-- C2 counterexample: for raw scores [0, 3 * 2^60] the affine map of the
claim yields [0, 100], but the int64 product (raw - lowest) * 100 wraps
and the code produces [0, -1]. -/
theorem c2_normalize_counterexample :
    (NormalizeScore c2xScores).map (fun s => s.score) = [0, -1] ∧
      normalizeSpec (c2xScores.map fun s => s.score) = [0, 100] ∧
      (NormalizeScore c2xScores).map (fun s => s.score)
        ≠ normalizeSpec (c2xScores.map fun s => s.score) :=
  ⟨by decide, by decide, by decide⟩

/-- C10 (amended): for every non-empty score list whose entries all have
absolute value at most 2^55, NormalizeScore keeps every output inside
[MinNodeScore, MaxNodeScore].  (Raw scores near the int64 extremes can
overflow the intermediate product and land outside the range.) -/
theorem c10_range_amended (scores : List NodeScore) (hne : scores ≠ [])
    (hb : ∀ s ∈ scores, |s.score| ≤ 2 ^ 55) :
    ∀ out ∈ NormalizeScore scores, MinNodeScore ≤ out.score ∧ out.score ≤ MaxNodeScore := by
  intro out hout
  have hmem : out.score ∈ (NormalizeScore scores).map (fun s => s.score) :=
    List.mem_map_of_mem _ hout
  rw [normalizeScore_eq_spec scores hne hb] at hmem
  cases scores with
  | nil => exact absurd rfl hne
  | cons s rest =>
    have hmem' : out.score ∈ normalizeSpec (s.score :: rest.map fun t => t.score) := hmem
    exact normalizeSpec_mem_bounds s.score (rest.map fun t => t.score) out.score hmem'

/-- C10 witness, the specification's Scenario 6: the degenerate list
[5, 5, 5] normalizes to all-minimum scores, inside the range. -/
theorem c10_range_witness :
    c10wScores ≠ [] ∧ (∀ s ∈ c10wScores, |s.score| ≤ 2 ^ 55) ∧
      ∀ out ∈ NormalizeScore c10wScores,
        MinNodeScore ≤ out.score ∧ out.score ≤ MaxNodeScore :=
  ⟨by decide, by decide, c10_range_amended c10wScores (by decide) (by decide)⟩

/-- C10 counterexample: for input scores [3 * 2^60, 0] the first output is
-1, below MinNodeScore, because (raw - lowest) * 100 overflows int64. -/
theorem c10_range_counterexample :
    (NormalizeScore c10xScores).map (fun s => s.score) = [-1, 0] ∧
      ¬ ∀ out ∈ NormalizeScore c10xScores,
          MinNodeScore ≤ out.score ∧ out.score ≤ MaxNodeScore :=
  ⟨by decide, by decide⟩

theorem absSubTriangle (a b : Int) : |a - b| ≤ |a| + |b| := by
  calc |a - b| = |a + -b| := by rw [sub_eq_add_neg]
    _ ≤ |a| + |(-b)| := abs_add a (-b)
    _ = |a| + |b| := by rw [abs_neg]

theorem abs_listSum_le (l : List Int) : |l.sum| ≤ (l.map fun x => |x|).sum := by
  induction l with
  | nil => simp
  | cons x xs ih =>
    simp only [List.sum_cons, List.map_cons]
    exact le_trans (abs_add x xs.sum) (add_le_add_left ih |x|)

theorem pairSloSum_cons (lat rps slo : ℚ) (rest : List ℚ) :
    pairSloSum lat rps (slo :: rest)
      = truncRat (lat * (rps + 100) / slo) + pairSloSum lat rps rest := by
  unfold pairSloSum
  simp

theorem pairSloAbs_cons (lat rps slo : ℚ) (rest : List ℚ) :
    pairSloAbs lat rps (slo :: rest)
      = |truncRat (lat * (rps + 100) / slo)| + pairSloAbs lat rps rest := by
  unfold pairSloAbs
  simp

theorem pairSloAbs_nonneg (lat rps : ℚ) (slos : List ℚ) : 0 ≤ pairSloAbs lat rps slos := by
  unfold pairSloAbs
  apply List.sum_nonneg
  intro x hx
  rcases List.mem_map.mp hx with ⟨slo, -, rfl⟩
  exact abs_nonneg _

theorem pairSloSum_abs_le (lat rps : ℚ) (slos : List ℚ) :
    |pairSloSum lat rps slos| ≤ pairSloAbs lat rps slos := by
  unfold pairSloSum pairSloAbs
  have h := abs_listSum_le (slos.map fun slo => truncRat (lat * (rps + 100) / slo))
  simpa [List.map_map, Function.comp] using h

theorem peerSloCostAbs_nonneg (cluster : Cluster) (pod : Pod) (node cn : Node) (peer : Pod) :
    0 ≤ peerSloCostAbs cluster pod node cn peer := by
  unfold peerSloCostAbs
  by_cases h : ArePodsNeighbors pod peer = true
  · rw [if_pos h]
    exact pairSloAbs_nonneg _ _ _
  · rw [if_neg h]

theorem peerSloCost_abs_le (cluster : Cluster) (pod : Pod) (node cn : Node) (peer : Pod) :
    |peerSloCost cluster pod node cn peer| ≤ peerSloCostAbs cluster pod node cn peer := by
  unfold peerSloCost peerSloCostAbs
  by_cases h : ArePodsNeighbors pod peer = true
  · rw [if_pos h, if_pos h]
    exact pairSloSum_abs_le _ _ _
  · rw [if_neg h, if_neg h]
    simp

theorem peerAbsSum_nonneg (cluster : Cluster) (pod : Pod) (node cn : Node) (peers : List Pod) :
    0 ≤ (peers.map (peerSloCostAbs cluster pod node cn)).sum := by
  apply List.sum_nonneg
  intro x hx
  rcases List.mem_map.mp hx with ⟨peer, -, rfl⟩
  exact peerSloCostAbs_nonneg cluster pod node cn peer

theorem nodeAbsSum_nonneg (cluster : Cluster) (pod : Pod) (node : Node) (nodes : List Node) :
    0 ≤ (nodes.map fun cn =>
      ((podsOnNode cluster pod.ns cn.name).map (peerSloCostAbs cluster pod node cn)).sum).sum := by
  apply List.sum_nonneg
  intro x hx
  rcases List.mem_map.mp hx with ⟨cn, -, rfl⟩
  exact peerAbsSum_nonneg cluster pod node cn _

theorem sloFold_eq (lat rps : ℚ) (slos : List ℚ) :
    ∀ s : Int, |s| + pairSloAbs lat rps slos ≤ 2 ^ 63 - 1 →
      sloFold lat rps slos s = s - pairSloSum lat rps slos := by
  induction slos with
  | nil =>
    intro s _
    simp [sloFold, pairSloSum]
  | cons slo rest ih =>
    intro s hs
    rw [pairSloAbs_cons] at hs
    have hrest : 0 ≤ pairSloAbs lat rps rest := pairSloAbs_nonneg lat rps rest
    have htabs : 0 ≤ |truncRat (lat * (rps + 100) / slo)| := abs_nonneg _
    have htri : |s - truncRat (lat * (rps + 100) / slo)|
        ≤ |s| + |truncRat (lat * (rps + 100) / slo)| := absSubTriangle _ _
    have hw : wrap64 (s - truncRat (lat * (rps + 100) / slo))
        = s - truncRat (lat * (rps + 100) / slo) := by
      rcases abs_le.mp (show |s - truncRat (lat * (rps + 100) / slo)| ≤ 2 ^ 63 - 1 by omega)
        with ⟨h1, h2⟩
      exact wrap64_eq_self (by omega) (by omega)
    show sloFold lat rps rest (wrap64 (s - truncRat (lat * (rps + 100) / slo)))
        = s - pairSloSum lat rps (slo :: rest)
    rw [hw, pairSloSum_cons,
      ih (s - truncRat (lat * (rps + 100) / slo)) (by omega)]
    omega

theorem peersFold_eq (cluster : Cluster) (pod : Pod) (node cn : Node) (peers : List Pod) :
    ∀ s : Int, |s| + (peers.map (peerSloCostAbs cluster pod node cn)).sum ≤ 2 ^ 63 - 1 →
      peers.foldl (fun score peer =>
        if ArePodsNeighbors pod peer then
          sloFold (GetNodeLatency node cn) (GetAppRequestsPerSecond cluster pod peer)
            (GetSharedChainsSlos pod peer) score
        else score) s
      = s - (peers.map (peerSloCost cluster pod node cn)).sum := by
  induction peers with
  | nil =>
    intro s _
    simp
  | cons peer rest ih =>
    intro s hs
    simp only [List.map_cons, List.sum_cons] at hs
    have hrest : 0 ≤ (rest.map (peerSloCostAbs cluster pod node cn)).sum :=
      peerAbsSum_nonneg cluster pod node cn rest
    have hpabs : 0 ≤ peerSloCostAbs cluster pod node cn peer :=
      peerSloCostAbs_nonneg cluster pod node cn peer
    have hple : |peerSloCost cluster pod node cn peer|
        ≤ peerSloCostAbs cluster pod node cn peer :=
      peerSloCost_abs_le cluster pod node cn peer
    have htri : |s - peerSloCost cluster pod node cn peer|
        ≤ |s| + |peerSloCost cluster pod node cn peer| := absSubTriangle _ _
    simp only [List.foldl_cons, List.map_cons, List.sum_cons]
    by_cases hn : ArePodsNeighbors pod peer = true
    · rw [if_pos hn]
      have hcost : peerSloCost cluster pod node cn peer
          = pairSloSum (GetNodeLatency node cn) (GetAppRequestsPerSecond cluster pod peer)
              (GetSharedChainsSlos pod peer) := by
        unfold peerSloCost
        rw [if_pos hn]
      have hcostAbs : peerSloCostAbs cluster pod node cn peer
          = pairSloAbs (GetNodeLatency node cn) (GetAppRequestsPerSecond cluster pod peer)
              (GetSharedChainsSlos pod peer) := by
        unfold peerSloCostAbs
        rw [if_pos hn]
      rw [sloFold_eq _ _ _ s (by rw [← hcostAbs]; omega), ← hcost,
        ih (s - peerSloCost cluster pod node cn peer) (by omega)]
      omega
    · rw [if_neg hn]
      have hcost : peerSloCost cluster pod node cn peer = 0 := by
        unfold peerSloCost
        rw [if_neg hn]
      rw [ih s (by omega), hcost]
      omega

theorem nodesFold_eq (cluster : Cluster) (pod : Pod) (node : Node) (nodes : List Node) :
    ∀ s : Int, |s| + (nodes.map fun cn =>
        ((podsOnNode cluster pod.ns cn.name).map (peerSloCostAbs cluster pod node cn)).sum).sum
        ≤ 2 ^ 63 - 1 →
      nodes.foldl (fun score cn =>
        (podsOnNode cluster pod.ns cn.name).foldl (fun score peer =>
          if ArePodsNeighbors pod peer then
            sloFold (GetNodeLatency node cn) (GetAppRequestsPerSecond cluster pod peer)
              (GetSharedChainsSlos pod peer) score
          else score) score) s
      = s - (nodes.map fun cn =>
          ((podsOnNode cluster pod.ns cn.name).map (peerSloCost cluster pod node cn)).sum).sum := by
  induction nodes with
  | nil =>
    intro s _
    simp
  | cons cn rest ih =>
    intro s hs
    simp only [List.map_cons, List.sum_cons] at hs
    have hrest : 0 ≤ (rest.map fun cn =>
        ((podsOnNode cluster pod.ns cn.name).map (peerSloCostAbs cluster pod node cn)).sum).sum :=
      nodeAbsSum_nonneg cluster pod node rest
    have hthis : 0 ≤ ((podsOnNode cluster pod.ns cn.name).map
        (peerSloCostAbs cluster pod node cn)).sum :=
      peerAbsSum_nonneg cluster pod node cn _
    have hcle : |((podsOnNode cluster pod.ns cn.name).map (peerSloCost cluster pod node cn)).sum|
        ≤ ((podsOnNode cluster pod.ns cn.name).map (peerSloCostAbs cluster pod node cn)).sum := by
      have h1 := abs_listSum_le ((podsOnNode cluster pod.ns cn.name).map
        (peerSloCost cluster pod node cn))
      have h2 : (((podsOnNode cluster pod.ns cn.name).map
            (peerSloCost cluster pod node cn)).map fun x => |x|).sum
          ≤ ((podsOnNode cluster pod.ns cn.name).map (peerSloCostAbs cluster pod node cn)).sum := by
        rw [List.map_map]
        apply List.sum_le_sum
        intro peer hmem
        exact peerSloCost_abs_le cluster pod node cn peer
      exact le_trans h1 h2
    simp only [List.foldl_cons, List.map_cons, List.sum_cons]
    rw [peersFold_eq cluster pod node cn (podsOnNode cluster pod.ns cn.name) s (by omega),
      ih _ (by
        have htri := absSubTriangle s
          (((podsOnNode cluster pod.ns cn.name).map (peerSloCost cluster pod node cn)).sum)
        omega)]
    omega

/-- C8: for every cluster, workload and candidate node (and whenever the
SLO terms cannot overflow the int64 accumulator), the SLO Cost Scorer's
raw score is exactly the negated sum, over every cluster node and every
neighboring peer bound to it, of the truncated terms
latency * (rps + 100) / slo for each shared SLO budget; a single budget
of 20 at rate 50 and latency 10 contributes the term 75 (the pair's score
term is -75), and a pair with zero shared SLO budgets contributes zero
whatever the latency and traffic. -/
theorem c8_slo_score_terms (cluster : Cluster) (pod : Pod) (nodeName : String) (node : Node)
    (h : findNode cluster nodeName = some node)
    (hB : totalSloCostAbs cluster pod node ≤ 2 ^ 63 - 1) :
    NetworkSloAwareScore cluster pod nodeName = some (-(totalSloCost cluster pod node)) ∧
      pairSloSum 10 50 [20] = 75 ∧ ∀ lat rps : ℚ, pairSloSum lat rps [] = 0 := by
  refine ⟨?_, by with_unfolding_all decide, fun lat rps => by simp [pairSloSum]⟩
  unfold NetworkSloAwareScore
  rw [h]
  dsimp only
  have hB' : |(0 : Int)| + (cluster.nodes.map fun cn =>
      ((podsOnNode cluster pod.ns cn.name).map (peerSloCostAbs cluster pod node cn)).sum).sum
      ≤ 2 ^ 63 - 1 := by
    have : totalSloCostAbs cluster pod node = (cluster.nodes.map fun cn =>
        ((podsOnNode cluster pod.ns cn.name).map (peerSloCostAbs cluster pod node cn)).sum).sum :=
      rfl
    rw [this] at hB
    simpa using hB
  rw [nodesFold_eq cluster pod node cluster.nodes 0 hB']
  unfold totalSloCost
  norm_num

/-- C8 witness, the specification's Scenario 4: latency 10 between n1 and
n2, one neighbor peer on n2, shared SLO budget 20 and request rate 50
give the raw score -75. -/
theorem c8_slo_score_witness :
    findNode c8Cluster "n1" = some c8n1 ∧
      totalSloCostAbs c8Cluster c8Pod c8n1 ≤ 2 ^ 63 - 1 ∧
      NetworkSloAwareScore c8Cluster c8Pod "n1" = some (-75) := by
  refine ⟨by with_unfolding_all decide, by with_unfolding_all decide, ?_⟩
  rw [(c8_slo_score_terms c8Cluster c8Pod "n1" c8n1 (by with_unfolding_all decide)
    (by with_unfolding_all decide)).1]
  with_unfolding_all decide
